import Mathlib
/-!
Shallow embedding of the async chat server/client
(`chat_server/src/main.rs`, `chat_server/src/lib.rs`, `chat_client/src/lib.rs`,
`chat_shared/src/objects/user.rs`).

Texts are modelled as lists of Unicode scalar values (`List Nat`), byte
buffers as lists of byte values (`List Nat`).  Rust `String::from_utf8` is
embedded as an executable UTF-8 decoder over byte lists, and
`String::into_bytes` as the matching encoder.
-/

namespace Chat

/-- A Unicode scalar value as Rust's `char` holds it: below `0x110000` and
not a UTF-16 surrogate. -/
def ScalarValid (n : Nat) : Prop :=
  n < 0x110000 ∧ ¬(0xD800 ≤ n ∧ n ≤ 0xDFFF)

instance (n : Nat) : Decidable (ScalarValid n) := by
  unfold ScalarValid; infer_instance

/-- Every scalar of the text is a valid Unicode scalar value (the invariant
of Rust `String` / `char`). -/
def TextValid (t : List Nat) : Prop := ∀ n ∈ t, ScalarValid n

instance (t : List Nat) : Decidable (TextValid t) := by
  unfold TextValid; infer_instance

/-- UTF-8 encoding of one Unicode scalar value (what Rust's
`String::into_bytes` produces per `char`). -/
def encodeScalar (n : Nat) : List Nat :=
  if n ≤ 0x7F then [n]
  else if n ≤ 0x7FF then [0xC0 + n / 0x40, 0x80 + n % 0x40]
  else if n ≤ 0xFFFF then
    [0xE0 + n / 0x1000, 0x80 + n / 0x40 % 0x40, 0x80 + n % 0x40]
  else
    [0xF0 + n / 0x40000, 0x80 + n / 0x1000 % 0x40, 0x80 + n / 0x40 % 0x40,
      0x80 + n % 0x40]

/-- UTF-8 encoding of a text: concatenation of the per-scalar encodings
(Rust `String::into_bytes`). -/
def utf8Encode : List Nat → List Nat
  | [] => []
  | c :: cs => encodeScalar c ++ utf8Encode cs

/-- Is `b` a UTF-8 continuation byte (`0x80..=0xBF`)? -/
def IsCont (b : Nat) : Prop := 0x80 ≤ b ∧ b ≤ 0xBF

instance (b : Nat) : Decidable (IsCont b) := by
  unfold IsCont; infer_instance

/-- Admissible first continuation byte of a three-byte sequence with lead
byte `b` (Unicode Table 3-7, as Rust's `from_utf8` validates). -/
def Cont1Ok3 (b c1 : Nat) : Prop :=
  if b = 0xE0 then 0xA0 ≤ c1 ∧ c1 ≤ 0xBF
  else if b = 0xED then 0x80 ≤ c1 ∧ c1 ≤ 0x9F
  else IsCont c1

instance (b c1 : Nat) : Decidable (Cont1Ok3 b c1) := by
  unfold Cont1Ok3 IsCont; infer_instance

/-- Admissible first continuation byte of a four-byte sequence with lead
byte `b` (Unicode Table 3-7, as Rust's `from_utf8` validates). -/
def Cont1Ok4 (b c1 : Nat) : Prop :=
  if b = 0xF0 then 0x90 ≤ c1 ∧ c1 ≤ 0xBF
  else if b = 0xF4 then 0x80 ≤ c1 ∧ c1 ≤ 0x8F
  else IsCont c1

instance (b c1 : Nat) : Decidable (Cont1Ok4 b c1) := by
  unfold Cont1Ok4 IsCont; infer_instance

/-- Decode one UTF-8 sequence with lead byte `b` and remaining input `bs`,
yielding the scalar value and the rest of the input; `none` on any
ill-formed sequence (shortest-form, surrogate-free validation per Unicode
Table 3-7, as Rust's `from_utf8` performs it). -/
def decodeOne (b : Nat) (bs : List Nat) : Option (Nat × List Nat) :=
  if b ≤ 0x7F then some (b, bs)
  else if 0xC2 ≤ b ∧ b ≤ 0xDF then
    match bs with
    | c1 :: r =>
      if IsCont c1 then some ((b - 0xC0) * 0x40 + (c1 - 0x80), r) else none
    | [] => none
  else if 0xE0 ≤ b ∧ b ≤ 0xEF then
    match bs with
    | c1 :: c2 :: r =>
      if Cont1Ok3 b c1 ∧ IsCont c2 then
        some ((b - 0xE0) * 0x1000 + (c1 - 0x80) * 0x40 + (c2 - 0x80), r)
      else none
    | _ => none
  else if 0xF0 ≤ b ∧ b ≤ 0xF4 then
    match bs with
    | c1 :: c2 :: c3 :: r =>
      if Cont1Ok4 b c1 ∧ IsCont c2 ∧ IsCont c3 then
        some ((b - 0xF0) * 0x40000 + (c1 - 0x80) * 0x1000 + (c2 - 0x80) * 0x40 +
          (c3 - 0x80), r)
      else none
    | _ => none
  else none

/-- Fuel-indexed UTF-8 decoding: structural recursion on the fuel, which
only has to dominate the input length. -/
def utf8DecodeAux : Nat → List Nat → Option (List Nat)
  | _, [] => some []
  | 0, _ :: _ => none
  | fuel + 1, b :: bs =>
    match decodeOne b bs with
    | some (n, r) => (utf8DecodeAux fuel r).map (n :: ·)
    | none => none

/-- UTF-8 decoding of a byte list into Unicode scalar values; `none` on any
ill-formed sequence.  This is Rust's `String::from_utf8`. -/
def utf8Decode (l : List Nat) : Option (List Nat) :=
  utf8DecodeAux l.length l

/-- `Vec::resize(n, fill)`: truncate to `n` elements if longer, else pad
with `fill` up to `n`. -/
def vecResize (v : List Nat) (n : Nat) (fill : Nat) : List Nat :=
  v.take n ++ List.replicate (n - v.length) fill

/-- Frame encoding as `handle_writes` performs it
(`chat_server/src/main.rs:56-57`): take the message's UTF-8 bytes and
`resize` them to the configured frame size `N`, padding with zero bytes. -/
def frame_encode (messageBytes : List Nat) (N : Nat) : List Nat :=
  vecResize messageBytes N 0

/-- `get_message_from_buffer` (`chat_server/src/main.rs:16-21`): drop every
zero byte of the buffer, then decode the remaining bytes as UTF-8; `none`
models the `Err` branch (invalid encoding). -/
def get_message_from_buffer (buffer : List Nat) : Option (List Nat) :=
  utf8Decode (buffer.filter (fun b => b ≠ 0))

/-! ### Command processing (`process_command`, `chat_server/src/main.rs:25-47`) -/

/-- Rust `char::is_whitespace`: the Unicode `White_Space` code points. -/
def isWS (n : Nat) : Bool :=
  decide (n = 0x09) || decide (n = 0x0A) || decide (n = 0x0B) ||
  decide (n = 0x0C) || decide (n = 0x0D) || decide (n = 0x20) ||
  decide (n = 0x85) || decide (n = 0xA0) || decide (n = 0x1680) ||
  (decide (0x2000 ≤ n) && decide (n ≤ 0x200A)) || decide (n = 0x2028) ||
  decide (n = 0x2029) || decide (n = 0x202F) || decide (n = 0x205F) ||
  decide (n = 0x3000)

/-- Longest non-whitespace run at the head of the text. -/
def takeTok (s : List Nat) : List Nat := s.takeWhile (fun c => !isWS c)

/-- Text with its head non-whitespace run removed. -/
def dropTok (s : List Nat) : List Nat := s.dropWhile (fun c => !isWS c)

/-- Fuel-indexed whitespace splitting: structural recursion on the fuel,
which only has to dominate the input length. -/
def splitWSAux : Nat → List Nat → List (List Nat)
  | _, [] => []
  | 0, _ :: _ => []
  | fuel + 1, c :: cs =>
    if isWS c then splitWSAux fuel cs
    else (c :: takeTok cs) :: splitWSAux fuel (dropTok cs)

/-- Rust `str::split_whitespace`: the maximal non-whitespace runs of the
text, in order, with no empty tokens. -/
def splitWS (s : List Nat) : List (List Nat) :=
  splitWSAux s.length s

/-- Rust `str::trim`: remove leading and trailing whitespace. -/
def trimChars (s : List Nat) : List Nat :=
  ((s.dropWhile isWS).reverse.dropWhile isWS).reverse

/-- The scalar values of `":quit"`. -/
def quitTok : List Nat := [0x3A, 0x71, 0x75, 0x69, 0x74]

/-- The scalar values of `":name"`. -/
def nameTok : List Nat := [0x3A, 0x6E, 0x61, 0x6D, 0x65]

/-- The per-session mutable state of `User`
(`chat_shared/src/objects/user.rs`): the `is_active` flag, the optional
nickname, and the immutable peer address string. -/
structure SessionState where
  active : Bool
  nickname : Option (List Nat)
  address : List Nat
  deriving DecidableEq

/-- `User::get_display_name` (`chat_shared/src/objects/user.rs:105-112`):
the nickname if set, the address otherwise. -/
def get_display_name (st : SessionState) : List Nat :=
  match st.nickname with
  | some nick => nick
  | none => st.address

/-- `process_command` (`chat_server/src/main.rs:25-47`): split the command
on whitespace; `:quit` clears the active flag, `:name` with at most one
token clears the nickname, `:name` with an argument sets the nickname to
`args[1]`, anything else does nothing. -/
def process_command (command : List Nat) (st : SessionState) : SessionState :=
  match splitWS command with
  | [] => st
  | c :: rest =>
    if c = quitTok then { st with active := false }
    else if c = nameTok then
      match rest with
      | [] => { st with nickname := none }
      | a1 :: _ => { st with nickname := some a1 }
    else st

/-- `send_message` formatting (`chat_server/src/main.rs:147-148`):
`format!("{}: {}", display_name, message)` followed by `replace('"', "")`. -/
def send_message_line (message : List Nat) (st : SessionState) : List Nat :=
  (get_display_name st ++ [0x3A, 0x20] ++ message).filter (fun c => c ≠ 0x22)

/-! ### The session read loop (`handle_client`, `chat_server/src/main.rs:69-124`) -/

/-- Outcome of one `try_read` call on the session's socket:
`ok data` models `Ok(data.length)` having written `data` into the start of
the buffer (`ok []` is a zero-byte read), `wouldBlock` models
`Err(WouldBlock)`, `err` models any other `Err`. -/
inductive ReadEvent where
  | ok (data : List Nat)
  | wouldBlock
  | err
  deriving DecidableEq

/-- `try_read(&mut buffer)`: the `data.length` bytes read overwrite the
start of the buffer; the rest of the buffer keeps its previous (stale)
contents. -/
def writeInto (buffer data : List Nat) : List Nat :=
  data ++ buffer.drop data.length

/-- Result of running the `handle_client` read loop over a (finite) list of
read outcomes: the chat lines enqueued to the broadcaster in order, the
final session state, the final buffer contents, and whether the loop has
exited (reached the code after `loop`, i.e. `remove_client`).  When the
events run out while the session is still active the loop is blocked
waiting for the next read: `exited = false`. -/
structure LoopResult where
  broadcasts : List (List Nat)
  state : SessionState
  buffer : List Nat
  exited : Bool
  deriving DecidableEq

/-- The read loop of `handle_client` (`chat_server/src/main.rs:78-118`).
Per iteration: exit if `is_active` is false; otherwise take the next read
outcome.  `WouldBlock` retries; any other read error breaks.  On `Ok(_)`
(including `Ok(0)`) the whole buffer is decoded via
`get_message_from_buffer`; a decode failure breaks.  The decoded text is
dispatched on its trimmed form: leading `:` goes to `process_command`,
empty text is skipped, anything else is formatted and enqueued
(queue sends are modelled as always succeeding). -/
def handle_client : List ReadEvent → SessionState → List Nat → LoopResult
  | [], st, buffer =>
    if st.active = false then ⟨[], st, buffer, true⟩
    else ⟨[], st, buffer, false⟩
  | ReadEvent.wouldBlock :: rest, st, buffer =>
    if st.active = false then ⟨[], st, buffer, true⟩
    else handle_client rest st buffer
  | ReadEvent.err :: _rest, st, buffer => ⟨[], st, buffer, true⟩
  | ReadEvent.ok data :: rest, st, buffer =>
    if st.active = false then ⟨[], st, buffer, true⟩
    else
      match get_message_from_buffer (writeInto buffer data) with
      | none => ⟨[], st, writeInto buffer data, true⟩
      | some message =>
        if (trimChars message).head? = some 0x3A then
          handle_client rest (process_command (trimChars message) st)
            (writeInto buffer data)
        else if trimChars message = [] then
          handle_client rest st (writeInto buffer data)
        else
          { handle_client rest st (writeInto buffer data) with
              broadcasts := send_message_line message st ::
                (handle_client rest st (writeInto buffer data)).broadcasts }

/-- `remove_client` (`chat_server/src/main.rs:127-139`): scan the client
list for the first entry identical (`Arc::ptr_eq`) to the leaving session,
remove that one entry; no-op when absent.  Sessions are identified by a
`Nat` id standing for the `Arc` pointer identity. -/
def remove_client : List Nat → Nat → List Nat
  | [], _ => []
  | c :: cs, sid => if c = sid then cs else c :: remove_client cs sid

/-- The tail of `handle_client` (`chat_server/src/main.rs:120-123`): once
the read loop has exited, the session removes itself from the client
registry; while the loop is still running the registry is untouched. -/
def session_epilogue (r : LoopResult) (registry : List Nat) (sid : Nat) :
    List Nat :=
  if r.exited then remove_client registry sid else registry

/-! ### The broadcaster (`handle_writes`, `chat_server/src/main.rs:51-65`) -/

/-- A registered client as the broadcaster sees it: its identity and
whether its `socket` field is `Some`. -/
structure WClient where
  sid : Nat
  hasSocket : Bool
  deriving DecidableEq

/-- One fan-out round of `handle_writes` (`chat_server/src/main.rs:53-64`)
for a single dequeued `message`: for each client of the registry in order,
build the frame by `resize`-ing the message bytes to `N` and, when the
client's socket is present, attempt `try_write`; `writeOk` gives each
attempt's outcome and a failed attempt just `continue`s to the next
client.  Returns the log of attempts `(sid, frame, outcome)` in order. -/
def handle_writes (N : Nat) (messageBytes : List Nat) (clients : List WClient)
    (writeOk : Nat → Bool) : List (Nat × List Nat × Bool) :=
  match clients with
  | [] => []
  | c :: cs =>
    if c.hasSocket then
      (c.sid, frame_encode messageBytes N, writeOk c.sid) ::
        handle_writes N messageBytes cs writeOk
    else
      handle_writes N messageBytes cs writeOk

/-! ### Registry lifecycle (`main` accept loop, `chat_server/src/main.rs:205-222`,
and session exit, `chat_server/src/main.rs:120-139`) -/

/-- A connect / `:quit` / disconnect event.  `quit sid` is the session
`sid` leaving through a `:quit` command, `disconnect sid` through a fatal
read error; both run the identical exit path of `handle_client`
(break out of the loop, then `remove_client`). -/
inductive LifeEvent where
  | connect
  | quit (sid : Nat)
  | disconnect (sid : Nat)
  deriving DecidableEq

/-- The server's shared state as far as the registry is concerned: the
`clients` vector (session ids standing for the `Arc<User>` pointers),
the set of sessions ever spawned with a flag telling whether their
`handle_client` task has already finished (state `Removed`), and the next
fresh id. -/
structure ServerState where
  registry : List Nat
  sessions : List (Nat × Bool)
  nextId : Nat
  deriving DecidableEq

/-- The state before any connection: empty registry, no sessions. -/
def initServer : ServerState := ⟨[], [], 0⟩

/-- Mark the session `sid` as `Removed` (its read loop has exited). -/
def markRemoved (sessions : List (Nat × Bool)) (sid : Nat) :
    List (Nat × Bool) :=
  sessions.map (fun p => if p.1 = sid then (p.1, true) else p)

/-- Is `sid` a live (spawned, not yet removed) session? -/
def isLive (sessions : List (Nat × Bool)) (sid : Nat) : Bool :=
  sessions.any (fun p => p.1 = sid && p.2 = false)

/-- Apply one lifecycle event.  `connect` is the accept loop
(`chat_server/src/main.rs:205-222`): a fresh `Arc<User>` is pushed onto the
clients vector and its read loop spawned.  `quit`/`disconnect` of a live
session is that session's `handle_client` exiting its loop and running
`remove_client`; events naming a session that has already been removed (or
never existed) cannot occur for that session's task and are no-ops. -/
def applyEvent (s : ServerState) : LifeEvent → ServerState
  | LifeEvent.connect =>
    { registry := s.registry ++ [s.nextId],
      sessions := s.sessions ++ [(s.nextId, false)],
      nextId := s.nextId + 1 }
  | LifeEvent.quit sid =>
    if isLive s.sessions sid then
      { s with registry := remove_client s.registry sid,
               sessions := markRemoved s.sessions sid }
    else s
  | LifeEvent.disconnect sid =>
    if isLive s.sessions sid then
      { s with registry := remove_client s.registry sid,
               sessions := markRemoved s.sessions sid }
    else s

/-- Apply a sequence of lifecycle events from a given state. -/
def applyEvents (s : ServerState) : List LifeEvent → ServerState
  | [] => s
  | e :: es => applyEvents (applyEvent s e) es

/-! ### The client's print filter (`get_and_print_message`,
`chat_client/src/lib.rs:10-20`) -/

/-- The condition of `chat_client/src/lib.rs:17` under which the client
prints a decoded broadcast line: the line is non-empty and does not start
with `format!("{}: ", display_name)`. -/
def client_shows (message displayName : List Nat) : Bool :=
  !(message.isEmpty) && !((displayName ++ [0x3A, 0x20]).isPrefixOf message)

/-- The ids of the sessions not yet removed, in order. -/
def activeIds (sessions : List (Nat × Bool)) : List Nat :=
  (sessions.filter (fun p => !p.2)).map Prod.fst

/-! ### Lemmas and claim theorems -/

theorem decodeOne_rest_length {b : Nat} {bs : List Nat} {n : Nat}
    {r : List Nat} (h : decodeOne b bs = some (n, r)) : r.length ≤ bs.length := by
  unfold decodeOne at h
  split at h
  · cases h; exact le_refl _
  · split at h
    · split at h
      · split at h
        · injection h with h1
          rw [Prod.mk.injEq] at h1
          obtain ⟨-, h2⟩ := h1
          subst h2
          simp only [List.length_cons]
          omega
        · cases h
      · cases h
    · split at h
      · split at h
        · split at h
          · injection h with h1
            rw [Prod.mk.injEq] at h1
            obtain ⟨-, h2⟩ := h1
            subst h2
            simp only [List.length_cons]
            omega
          · cases h
        · cases h
      · split at h
        · split at h
          · split at h
            · injection h with h1
              rw [Prod.mk.injEq] at h1
              obtain ⟨-, h2⟩ := h1
              subst h2
              simp only [List.length_cons]
              omega
            · cases h
          · cases h
        · cases h

theorem utf8DecodeAux_nil (fuel : Nat) : utf8DecodeAux fuel [] = some [] := by
  cases fuel <;> rfl

theorem utf8DecodeAux_fuel (fuel : Nat) (l : List Nat)
    (h : l.length ≤ fuel) : utf8DecodeAux fuel l = utf8Decode l := by
  induction fuel using Nat.strong_induction_on generalizing l with
  | _ fuel ih =>
    cases l with
    | nil => rw [utf8DecodeAux_nil]; rfl
    | cons b bs =>
      cases fuel with
      | zero => simp at h
      | succ fuel =>
        rw [utf8Decode]
        simp only [List.length_cons] at h
        rcases hd : decodeOne b bs with _ | ⟨n, r⟩
        · simp only [utf8DecodeAux, hd]
        · have hr := decodeOne_rest_length hd
          simp only [List.length_cons, utf8DecodeAux, hd]
          rw [ih fuel (by omega) r (by omega),
            ih bs.length (by omega) r (by omega)]

theorem utf8Decode_nil : utf8Decode [] = some [] := rfl

theorem utf8Decode_cons_some {b : Nat} {bs : List Nat} {n : Nat}
    {r : List Nat} (h : decodeOne b bs = some (n, r)) :
    utf8Decode (b :: bs) = (utf8Decode r).map (n :: ·) := by
  rw [utf8Decode]
  simp only [List.length_cons, utf8DecodeAux, h]
  rw [utf8DecodeAux_fuel bs.length r (decodeOne_rest_length h)]

theorem utf8Decode_cons_none {b : Nat} {bs : List Nat}
    (h : decodeOne b bs = none) : utf8Decode (b :: bs) = none := by
  rw [utf8Decode]
  simp only [List.length_cons, utf8DecodeAux, h]

theorem decodeOne_encodeScalar (n : Nat) (h : ScalarValid n) (rest : List Nat) :
    decodeOne ((encodeScalar n).headI) ((encodeScalar n).tail ++ rest) =
      some (n, rest) := by
  obtain ⟨hlt, hsurr⟩ := h
  unfold encodeScalar
  by_cases h1 : n ≤ 0x7F
  · simp only [if_pos h1, List.headI, List.tail, List.nil_append]
    unfold decodeOne
    rw [if_pos h1]
  · by_cases h2 : n ≤ 0x7FF
    · simp only [if_neg h1, if_pos h2, List.headI, List.tail, List.cons_append,
        List.nil_append]
      have hd1 : ¬(0xC0 + n / 0x40 ≤ 0x7F) := by omega
      have hd23 : 0xC2 ≤ 0xC0 + n / 0x40 ∧ 0xC0 + n / 0x40 ≤ 0xDF :=
        ⟨by omega, by omega⟩
      have hc : IsCont (0x80 + n % 0x40) := ⟨by omega, by omega⟩
      unfold decodeOne
      simp only [if_neg hd1, if_pos hd23, if_pos hc]
      have hv : (0xC0 + n / 0x40 - 0xC0) * 0x40 + (0x80 + n % 0x40 - 0x80) = n := by
        omega
      rw [hv]
    · by_cases h3 : n ≤ 0xFFFF
      · simp only [if_neg h1, if_neg h2, if_pos h3, List.headI, List.tail,
          List.cons_append, List.nil_append]
        have hd1 : ¬(0xE0 + n / 0x1000 ≤ 0x7F) := by omega
        have hd2 : ¬(0xC2 ≤ 0xE0 + n / 0x1000 ∧ 0xE0 + n / 0x1000 ≤ 0xDF) := by
          omega
        have hd3 : 0xE0 ≤ 0xE0 + n / 0x1000 ∧ 0xE0 + n / 0x1000 ≤ 0xEF :=
          ⟨by omega, by omega⟩
        have hc1 : Cont1Ok3 (0xE0 + n / 0x1000) (0x80 + n / 0x40 % 0x40) := by
          unfold Cont1Ok3 IsCont
          by_cases he0 : 0xE0 + n / 0x1000 = 0xE0
          · rw [if_pos he0]; exact ⟨by omega, by omega⟩
          · by_cases hed : 0xE0 + n / 0x1000 = 0xED
            · rw [if_neg he0, if_pos hed]; exact ⟨by omega, by omega⟩
            · rw [if_neg he0, if_neg hed]; exact ⟨by omega, by omega⟩
        have hc2 : IsCont (0x80 + n % 0x40) := ⟨by omega, by omega⟩
        have hcc : Cont1Ok3 (0xE0 + n / 0x1000) (0x80 + n / 0x40 % 0x40) ∧
            IsCont (0x80 + n % 0x40) := ⟨hc1, hc2⟩
        unfold decodeOne
        simp only [if_neg hd1, if_neg hd2, if_pos hd3, if_pos hcc]
        have hv : (0xE0 + n / 0x1000 - 0xE0) * 0x1000 +
            (0x80 + n / 0x40 % 0x40 - 0x80) * 0x40 + (0x80 + n % 0x40 - 0x80)
            = n := by omega
        rw [hv]
      · simp only [if_neg h1, if_neg h2, if_neg h3, List.headI, List.tail,
          List.cons_append, List.nil_append]
        have hd1 : ¬(0xF0 + n / 0x40000 ≤ 0x7F) := by omega
        have hd2 : ¬(0xC2 ≤ 0xF0 + n / 0x40000 ∧ 0xF0 + n / 0x40000 ≤ 0xDF) := by
          omega
        have hd3 : ¬(0xE0 ≤ 0xF0 + n / 0x40000 ∧ 0xF0 + n / 0x40000 ≤ 0xEF) := by
          omega
        have hd4 : 0xF0 ≤ 0xF0 + n / 0x40000 ∧ 0xF0 + n / 0x40000 ≤ 0xF4 :=
          ⟨by omega, by omega⟩
        have hc1 : Cont1Ok4 (0xF0 + n / 0x40000) (0x80 + n / 0x1000 % 0x40) := by
          unfold Cont1Ok4 IsCont
          by_cases hf0 : 0xF0 + n / 0x40000 = 0xF0
          · rw [if_pos hf0]; exact ⟨by omega, by omega⟩
          · by_cases hf4 : 0xF0 + n / 0x40000 = 0xF4
            · rw [if_neg hf0, if_pos hf4]; exact ⟨by omega, by omega⟩
            · rw [if_neg hf0, if_neg hf4]; exact ⟨by omega, by omega⟩
        have hc2 : IsCont (0x80 + n / 0x40 % 0x40) := ⟨by omega, by omega⟩
        have hc3 : IsCont (0x80 + n % 0x40) := ⟨by omega, by omega⟩
        have hcc : Cont1Ok4 (0xF0 + n / 0x40000) (0x80 + n / 0x1000 % 0x40) ∧
            IsCont (0x80 + n / 0x40 % 0x40) ∧ IsCont (0x80 + n % 0x40) :=
          ⟨hc1, hc2, hc3⟩
        unfold decodeOne
        simp only [if_neg hd1, if_neg hd2, if_neg hd3, if_pos hd4, if_pos hcc]
        have hv : (0xF0 + n / 0x40000 - 0xF0) * 0x40000 +
            (0x80 + n / 0x1000 % 0x40 - 0x80) * 0x1000 +
            (0x80 + n / 0x40 % 0x40 - 0x80) * 0x40 + (0x80 + n % 0x40 - 0x80)
            = n := by omega
        rw [hv]

theorem encodeScalar_ne_nil (n : Nat) : encodeScalar n ≠ [] := by
  unfold encodeScalar
  by_cases h1 : n ≤ 0x7F
  · simp [h1]
  · by_cases h2 : n ≤ 0x7FF
    · simp [h1, h2]
    · by_cases h3 : n ≤ 0xFFFF
      · simp [h1, h2, h3]
      · simp [h1, h2, h3]

theorem encodeScalar_roundtrip (n : Nat) (h : ScalarValid n) (rest : List Nat) :
    utf8Decode (encodeScalar n ++ rest) = (utf8Decode rest).map (n :: ·) := by
  have hne := encodeScalar_ne_nil n
  have hsplit : encodeScalar n ++ rest =
      (encodeScalar n).headI :: ((encodeScalar n).tail ++ rest) := by
    cases he : encodeScalar n with
    | nil => exact absurd he hne
    | cons a l => simp [List.headI, List.tail]
  rw [hsplit, utf8Decode_cons_some (decodeOne_encodeScalar n h rest)]

theorem utf8Decode_encode (t : List Nat) (h : TextValid t) :
    utf8Decode (utf8Encode t) = some t := by
  induction t with
  | nil => rw [utf8Encode, utf8Decode_nil]
  | cons c cs ih =>
    rw [utf8Encode, encodeScalar_roundtrip c (h c (List.mem_cons_self c cs)),
      ih (fun n hn => h n (List.mem_cons_of_mem c hn))]
    rfl

theorem dropTok_length_le (s : List Nat) : (dropTok s).length ≤ s.length :=
  (List.dropWhile_sublist _).length_le

theorem splitWSAux_nil (fuel : Nat) : splitWSAux fuel [] = [] := by
  cases fuel <;> rfl

theorem splitWSAux_fuel (fuel : Nat) (s : List Nat) (h : s.length ≤ fuel) :
    splitWSAux fuel s = splitWS s := by
  induction fuel using Nat.strong_induction_on generalizing s with
  | _ fuel ih =>
    cases s with
    | nil => rw [splitWSAux_nil]; rfl
    | cons c cs =>
      cases fuel with
      | zero => simp at h
      | succ fuel =>
        simp only [List.length_cons] at h
        rw [splitWS]
        simp only [List.length_cons, splitWSAux]
        by_cases hc : isWS c = true
        · simp only [hc, if_true]
          rw [ih fuel (by omega) cs (by omega), ih cs.length (by omega) cs (by omega)]
        · simp only [hc, Bool.false_eq_true, if_false]
          have hd := dropTok_length_le cs
          rw [ih fuel (by omega) (dropTok cs) (by omega),
            ih cs.length (by omega) (dropTok cs) (by omega)]

theorem splitWS_nil : splitWS [] = [] := rfl

theorem splitWS_cons_ws {c : Nat} (cs : List Nat) (h : isWS c = true) :
    splitWS (c :: cs) = splitWS cs := by
  rw [splitWS]
  simp only [List.length_cons, splitWSAux, h, if_true]
  exact splitWSAux_fuel cs.length cs (le_refl _)

theorem splitWS_cons_tok {c : Nat} (cs : List Nat) (h : isWS c = false) :
    splitWS (c :: cs) = (c :: takeTok cs) :: splitWS (dropTok cs) := by
  rw [splitWS]
  simp only [List.length_cons, splitWSAux, h, Bool.false_eq_true, if_false]
  rw [splitWSAux_fuel cs.length (dropTok cs) (dropTok_length_le cs)]

theorem splitWS_dropWhile (s : List Nat) :
    splitWS (s.dropWhile isWS) = splitWS s := by
  induction s with
  | nil => rfl
  | cons c cs ih =>
    cases hc : isWS c with
    | true =>
      rw [List.dropWhile_cons_of_pos hc, ih, splitWS_cons_ws cs hc]
    | false =>
      rw [List.dropWhile_cons_of_neg (by simp [hc])]

theorem splitWS_all_ws {k : List Nat} (hk : ∀ x ∈ k, isWS x = true) :
    splitWS k = [] := by
  induction k with
  | nil => rfl
  | cons c cs ih =>
    rw [splitWS_cons_ws cs (hk c (List.mem_cons_self c cs))]
    exact ih (fun x hx => hk x (List.mem_cons_of_mem c hx))

theorem takeTok_append_ws {k : List Nat} (cs : List Nat)
    (hk : ∀ x ∈ k, isWS x = true) : takeTok (cs ++ k) = takeTok cs := by
  induction cs with
  | nil =>
    cases k with
    | nil => rfl
    | cons w k' =>
      simp only [List.nil_append, takeTok]
      rw [List.takeWhile_cons_of_neg (by simp [hk w (List.mem_cons_self w k')])]
      rfl
  | cons c cs ih =>
    cases hc : isWS c with
    | true =>
      simp only [List.cons_append, takeTok]
      rw [List.takeWhile_cons_of_neg (by simp [hc]),
        List.takeWhile_cons_of_neg (by simp [hc])]
    | false =>
      simp only [List.cons_append, takeTok]
      rw [List.takeWhile_cons_of_pos (by simp [hc]),
        List.takeWhile_cons_of_pos (by simp [hc])]
      simp only [takeTok] at ih
      rw [ih]

theorem dropTok_append_ws {k : List Nat} (cs : List Nat)
    (hk : ∀ x ∈ k, isWS x = true) : dropTok (cs ++ k) = dropTok cs ++ k := by
  induction cs with
  | nil =>
    cases k with
    | nil => rfl
    | cons w k' =>
      simp only [List.nil_append, dropTok]
      rw [List.dropWhile_cons_of_neg (by simp [hk w (List.mem_cons_self w k')])]
      rfl
  | cons c cs ih =>
    cases hc : isWS c with
    | true =>
      simp only [List.cons_append, dropTok]
      rw [List.dropWhile_cons_of_neg (by simp [hc]),
        List.dropWhile_cons_of_neg (by simp [hc])]
      rfl
    | false =>
      simp only [List.cons_append, dropTok]
      rw [List.dropWhile_cons_of_pos (by simp [hc]),
        List.dropWhile_cons_of_pos (by simp [hc])]
      simp only [dropTok] at ih
      rw [ih]

theorem splitWS_append_ws {k : List Nat} (m : List Nat)
    (hk : ∀ x ∈ k, isWS x = true) : splitWS (m ++ k) = splitWS m := by
  have main : ∀ len (m : List Nat), m.length ≤ len →
      splitWS (m ++ k) = splitWS m := by
    intro len
    induction len with
    | zero =>
      intro m hm
      cases m with
      | nil => exact splitWS_all_ws hk
      | cons c cs => simp at hm
    | succ len ih =>
      intro m hm
      cases m with
      | nil => exact splitWS_all_ws hk
      | cons c cs =>
        simp only [List.length_cons] at hm
        cases hc : isWS c with
        | true =>
          rw [List.cons_append, splitWS_cons_ws (cs ++ k) hc,
            splitWS_cons_ws cs hc]
          exact ih cs (by omega)
        | false =>
          rw [List.cons_append, splitWS_cons_tok (cs ++ k) hc,
            splitWS_cons_tok cs hc, takeTok_append_ws cs hk,
            dropTok_append_ws cs hk]
          have hlen := dropTok_length_le cs
          rw [ih (dropTok cs) (by omega)]
  exact main m.length m (le_refl _)

theorem trimChars_append_ws (s : List Nat) :
    ∃ k, s.dropWhile isWS = trimChars s ++ k ∧ ∀ x ∈ k, isWS x = true := by
  refine ⟨((s.dropWhile isWS).reverse.takeWhile isWS).reverse, ?_, ?_⟩
  · conv_lhs => rw [← List.reverse_reverse (s.dropWhile isWS),
      ← List.takeWhile_append_dropWhile (p := isWS) (l := (s.dropWhile isWS).reverse)]
    rw [List.reverse_append]
    rfl
  · intro x hx
    rw [List.mem_reverse] at hx
    exact List.mem_takeWhile_imp hx

theorem splitWS_trim (s : List Nat) : splitWS (trimChars s) = splitWS s := by
  obtain ⟨k, hk, hws⟩ := trimChars_append_ws s
  calc splitWS (trimChars s)
      = splitWS (trimChars s ++ k) := (splitWS_append_ws (trimChars s) hws).symm
    _ = splitWS (s.dropWhile isWS) := by rw [hk]
    _ = splitWS s := splitWS_dropWhile s

theorem dropWhile_head?_of_splitWS {s : List Nat} {tok : List Nat}
    {toks : List (List Nat)} (h : splitWS s = tok :: toks) :
    (s.dropWhile isWS).head? = tok.head? := by
  induction s with
  | nil => rw [splitWS_nil] at h; cases h
  | cons c cs ih =>
    cases hc : isWS c with
    | true =>
      rw [splitWS_cons_ws cs hc] at h
      rw [List.dropWhile_cons_of_pos hc]
      exact ih h
    | false =>
      rw [splitWS_cons_tok cs hc] at h
      injection h with h1 _
      rw [List.dropWhile_cons_of_neg (by simp [hc]), ← h1]
      rfl

theorem trimChars_head?_of_splitWS {s : List Nat} {tok : List Nat}
    {toks : List (List Nat)} (h : splitWS s = tok :: toks) :
    (trimChars s).head? = tok.head? := by
  obtain ⟨k, hk, hws⟩ := trimChars_append_ws s
  have hd := dropWhile_head?_of_splitWS h
  rw [hk, List.head?_append] at hd
  cases ht : (trimChars s).head? with
  | some a => rw [ht] at hd; simpa using hd
  | none =>
    rw [ht] at hd
    simp only [Option.none_or] at hd
    -- the trimmed text is empty, so all of `s.dropWhile isWS` is whitespace
    have hempty : trimChars s = [] := by
      cases htc : trimChars s with
      | nil => rfl
      | cons a t => rw [htc] at ht; cases ht
    rw [hempty, List.nil_append] at hk
    have : splitWS s = [] := by
      rw [← splitWS_dropWhile s, hk]
      exact splitWS_all_ws hws
    rw [this] at h
    cases h

theorem handle_client_inactive (events : List ReadEvent) (st : SessionState)
    (buffer : List Nat) (ha : st.active = false) :
    handle_client events st buffer = ⟨[], st, buffer, true⟩ := by
  cases events with
  | nil => rw [handle_client, if_pos ha]
  | cons e rest =>
    cases e with
    | ok data => rw [handle_client, if_pos ha]
    | wouldBlock => rw [handle_client, if_pos ha]
    | err => rw [handle_client]

theorem handle_client_ok {st : SessionState} (ha : st.active = true)
    (data : List Nat) (rest : List ReadEvent) (buffer : List Nat) :
    handle_client (ReadEvent.ok data :: rest) st buffer =
      match get_message_from_buffer (writeInto buffer data) with
      | none => ⟨[], st, writeInto buffer data, true⟩
      | some message =>
        if (trimChars message).head? = some 0x3A then
          handle_client rest (process_command (trimChars message) st)
            (writeInto buffer data)
        else if trimChars message = [] then
          handle_client rest st (writeInto buffer data)
        else
          { handle_client rest st (writeInto buffer data) with
              broadcasts := send_message_line message st ::
                (handle_client rest st (writeInto buffer data)).broadcasts } := by
  rw [handle_client, if_neg (by simp [ha])]

theorem handle_client_ok_none {st : SessionState} {data buffer : List Nat}
    (ha : st.active = true) (rest : List ReadEvent)
    (hdec : get_message_from_buffer (writeInto buffer data) = none) :
    handle_client (ReadEvent.ok data :: rest) st buffer =
      ⟨[], st, writeInto buffer data, true⟩ := by
  rw [handle_client_ok ha data rest buffer, hdec]

theorem handle_client_ok_cmd {st : SessionState} {data buffer message : List Nat}
    (ha : st.active = true) (rest : List ReadEvent)
    (hdec : get_message_from_buffer (writeInto buffer data) = some message)
    (hcolon : (trimChars message).head? = some 0x3A) :
    handle_client (ReadEvent.ok data :: rest) st buffer =
      handle_client rest (process_command (trimChars message) st)
        (writeInto buffer data) := by
  rw [handle_client_ok ha data rest buffer, hdec]
  simp only [if_pos hcolon]

theorem process_command_quit {cmd : List Nat} (st : SessionState)
    (h : (splitWS cmd).head? = some quitTok) :
    process_command cmd st = { st with active := false } := by
  unfold process_command
  cases hs : splitWS cmd with
  | nil => rw [hs] at h; cases h
  | cons c rest =>
    rw [hs] at h
    injection h with h1
    simp only [if_pos h1]

theorem process_command_name_nil {cmd : List Nat} (st : SessionState)
    (h : splitWS cmd = [nameTok]) :
    process_command cmd st = { st with nickname := none } := by
  unfold process_command
  rw [h]
  simp only [if_neg (by decide : ¬(nameTok = quitTok)), if_pos rfl, if_true]

theorem process_command_name_arg {cmd a1 : List Nat} (st : SessionState)
    (t : List (List Nat)) (h : splitWS cmd = nameTok :: a1 :: t) :
    process_command cmd st = { st with nickname := some a1 } := by
  unfold process_command
  rw [h]
  simp only [if_neg (by decide : ¬(nameTok = quitTok)), if_pos rfl, if_true]

theorem process_command_unknown {cmd tok : List Nat} (st : SessionState)
    (toks : List (List Nat)) (h : splitWS cmd = tok :: toks)
    (hq : tok ≠ quitTok) (hn : tok ≠ nameTok) :
    process_command cmd st = st := by
  unfold process_command
  rw [h]
  simp only [if_neg hq, if_neg hn]

theorem remove_client_not_mem {l : List Nat} {sid : Nat} (h : sid ∉ l) :
    remove_client l sid = l := by
  induction l with
  | nil => rfl
  | cons c cs ih =>
    rw [remove_client, if_neg (by simp at h; omega),
      ih (fun hm => h (List.mem_cons_of_mem c hm))]

theorem remove_client_count_le_one {l : List Nat} {sid : Nat}
    (h : l.count sid ≤ 1) : sid ∉ remove_client l sid := by
  induction l with
  | nil => simp [remove_client]
  | cons c cs ih =>
    rw [remove_client]
    by_cases hc : c = sid
    · rw [if_pos hc]
      subst hc
      rw [List.count_cons_self] at h
      exact List.count_eq_zero.mp (by omega)
    · rw [if_neg hc]
      rw [List.count_cons_of_ne (by omega)] at h
      intro hm
      rcases List.mem_cons.mp hm with h1 | h1
      · exact hc h1.symm
      · exact ih h h1

theorem markRemoved_not_mem {sessions : List (Nat × Bool)} {sid : Nat}
    (h : sid ∉ sessions.map Prod.fst) : markRemoved sessions sid = sessions := by
  induction sessions with
  | nil => rfl
  | cons p rest ih =>
    simp only [List.map_cons, List.mem_cons] at h
    push_neg at h
    unfold markRemoved
    simp only [List.map_cons]
    rw [if_neg (by intro he; exact h.1 he.symm)]
    have := ih h.2
    unfold markRemoved at this
    rw [this]

theorem markRemoved_map_fst (sessions : List (Nat × Bool)) (sid : Nat) :
    (markRemoved sessions sid).map Prod.fst = sessions.map Prod.fst := by
  unfold markRemoved
  rw [List.map_map]
  apply List.map_congr_left
  intro p _
  by_cases hp : p.1 = sid
  · simp [hp]
  · simp [hp]

theorem activeIds_cons (a : Nat) (b : Bool) (rest : List (Nat × Bool)) :
    activeIds ((a, b) :: rest) =
      if b then activeIds rest else a :: activeIds rest := by
  unfold activeIds
  cases b with
  | true => simp [List.filter_cons]
  | false => simp [List.filter_cons]

theorem activeIds_mem {sessions : List (Nat × Bool)} {x : Nat}
    (h : x ∈ activeIds sessions) : x ∈ sessions.map Prod.fst := by
  unfold activeIds at h
  obtain ⟨p, hp, rfl⟩ := List.mem_map.mp h
  exact List.mem_map.mpr ⟨p, (List.mem_filter.mp hp).1, rfl⟩

theorem remove_client_activeIds {sid : Nat} (sessions : List (Nat × Bool))
    (hnd : (sessions.map Prod.fst).Nodup) :
    remove_client (activeIds sessions) sid =
      activeIds (markRemoved sessions sid) := by
  induction sessions with
  | nil => rfl
  | cons p rest ih =>
    obtain ⟨a, b⟩ := p
    simp only [List.map_cons, List.nodup_cons] at hnd
    have hmark : markRemoved ((a, b) :: rest) sid =
        (if a = sid then (a, true) else (a, b)) :: markRemoved rest sid := rfl
    by_cases ha : a = sid
    · subst ha
      rw [hmark, if_pos rfl, markRemoved_not_mem hnd.1]
      cases b with
      | false =>
        rw [activeIds_cons, if_neg (by simp)]
        rw [activeIds_cons, if_pos rfl]
        rw [remove_client, if_pos rfl]
      | true =>
        rw [activeIds_cons, if_pos rfl]
        exact remove_client_not_mem (fun hm => hnd.1 (activeIds_mem hm))
    · rw [hmark, if_neg ha]
      cases b with
      | false =>
        rw [activeIds_cons, if_neg (by simp)]
        rw [activeIds_cons, if_neg (by simp)]
        rw [remove_client, if_neg ha, ih hnd.2]
      | true =>
        rw [activeIds_cons, if_pos rfl]
        rw [activeIds_cons, if_pos rfl]
        exact ih hnd.2

theorem sessionExit_inv (s : ServerState) (sid : Nat)
    (h1 : s.registry = activeIds s.sessions)
    (h2 : (s.sessions.map Prod.fst).Nodup)
    (h3 : ∀ p ∈ s.sessions, p.1 < s.nextId) :
    remove_client s.registry sid = activeIds (markRemoved s.sessions sid) ∧
    ((markRemoved s.sessions sid).map Prod.fst).Nodup ∧
    ∀ p ∈ markRemoved s.sessions sid, p.1 < s.nextId := by
  refine ⟨?_, ?_, ?_⟩
  · rw [h1]
    exact remove_client_activeIds s.sessions h2
  · rw [markRemoved_map_fst]
    exact h2
  · intro p hp
    unfold markRemoved at hp
    obtain ⟨q, hq, hfq⟩ := List.mem_map.mp hp
    have hlt := h3 q hq
    by_cases hqs : q.1 = sid
    · rw [if_pos hqs] at hfq
      subst hfq
      exact hlt
    · rw [if_neg hqs] at hfq
      subst hfq
      exact hlt

theorem applyEvent_inv (s : ServerState) (e : LifeEvent)
    (h1 : s.registry = activeIds s.sessions)
    (h2 : (s.sessions.map Prod.fst).Nodup)
    (h3 : ∀ p ∈ s.sessions, p.1 < s.nextId) :
    (applyEvent s e).registry = activeIds (applyEvent s e).sessions ∧
    ((applyEvent s e).sessions.map Prod.fst).Nodup ∧
    ∀ p ∈ (applyEvent s e).sessions, p.1 < (applyEvent s e).nextId := by
  cases e with
  | connect =>
    refine ⟨?_, ?_, ?_⟩
    · show s.registry ++ [s.nextId] = activeIds (s.sessions ++ [(s.nextId, false)])
      rw [h1]
      unfold activeIds
      rw [List.filter_append, List.map_append]
      rfl
    · show ((s.sessions ++ [(s.nextId, false)]).map Prod.fst).Nodup
      rw [List.map_append]
      refine List.Nodup.append h2 (by simp) ?_
      intro x hx hx'
      simp only [List.map_cons, List.map_nil, List.mem_singleton] at hx'
      subst hx'
      obtain ⟨p, hp, hfst⟩ := List.mem_map.mp hx
      have := h3 p hp
      omega
    · intro p hp
      rcases List.mem_append.mp hp with hm | hm
      · have := h3 p hm
        show p.1 < s.nextId + 1
        omega
      · simp only [List.mem_singleton] at hm
        subst hm
        show s.nextId < s.nextId + 1
        omega
  | quit sid =>
    by_cases hl : isLive s.sessions sid = true
    · have happ : applyEvent s (LifeEvent.quit sid) =
          { s with registry := remove_client s.registry sid,
                   sessions := markRemoved s.sessions sid } := by
        simp only [applyEvent]
        rw [if_pos hl]
      rw [happ]
      exact sessionExit_inv s sid h1 h2 h3
    · have happ : applyEvent s (LifeEvent.quit sid) = s := by
        simp only [applyEvent]
        rw [if_neg hl]
      rw [happ]
      exact ⟨h1, h2, h3⟩
  | disconnect sid =>
    by_cases hl : isLive s.sessions sid = true
    · have happ : applyEvent s (LifeEvent.disconnect sid) =
          { s with registry := remove_client s.registry sid,
                   sessions := markRemoved s.sessions sid } := by
        simp only [applyEvent]
        rw [if_pos hl]
      rw [happ]
      exact sessionExit_inv s sid h1 h2 h3
    · have happ : applyEvent s (LifeEvent.disconnect sid) = s := by
        simp only [applyEvent]
        rw [if_neg hl]
      rw [happ]
      exact ⟨h1, h2, h3⟩

theorem applyEvents_inv (events : List LifeEvent) :
    ∀ s : ServerState,
      s.registry = activeIds s.sessions →
      ((s.sessions.map Prod.fst).Nodup) →
      (∀ p ∈ s.sessions, p.1 < s.nextId) →
      (applyEvents s events).registry =
        activeIds (applyEvents s events).sessions ∧
      ((applyEvents s events).sessions.map Prod.fst).Nodup ∧
      ∀ p ∈ (applyEvents s events).sessions,
        p.1 < (applyEvents s events).nextId := by
  induction events with
  | nil => intro s h1 h2 h3; exact ⟨h1, h2, h3⟩
  | cons e es ih =>
    intro s h1 h2 h3
    obtain ⟨g1, g2, g3⟩ := applyEvent_inv s e h1 h2 h3
    exact ih (applyEvent s e) g1 g2 g3

theorem handle_writes_sids (N : Nat) (m : List Nat) (w : Nat → Bool)
    (clients : List WClient) (hsock : ∀ c ∈ clients, c.hasSocket = true) :
    (handle_writes N m clients w).map (fun e => e.1) =
      clients.map WClient.sid := by
  induction clients with
  | nil => rfl
  | cons c cs ih =>
    rw [handle_writes, if_pos (hsock c (List.mem_cons_self c cs))]
    simp only [List.map_cons]
    rw [ih (fun x hx => hsock x (List.mem_cons_of_mem c hx))]

theorem handle_writes_frames (N : Nat) (m : List Nat) (w : Nat → Bool)
    (clients : List WClient) :
    ∀ e ∈ handle_writes N m clients w, e.2.1 = frame_encode m N := by
  induction clients with
  | nil => intro e he; cases he
  | cons c cs ih =>
    intro e he
    rw [handle_writes] at he
    by_cases hc : c.hasSocket = true
    · rw [if_pos hc] at he
      rcases List.mem_cons.mp he with h1 | h1
      · subst h1; rfl
      · exact ih e h1
    · rw [if_neg hc] at he
      exact ih e he

/-! ### The claims -/

/-- C1: Framer round-trip — for every text whose UTF-8 byte length is
strictly less than the configured frame size `N` and whose encoding
contains no zero byte, encoding (the `Vec::resize` zero-padding of
`handle_writes`) followed by decoding (`get_message_from_buffer`: strip
all zero bytes, parse the rest as UTF-8) reproduces the text exactly. -/
theorem C1_framer_roundtrip (text : List Nat) (N : Nat)
    (hvalid : TextValid text)
    (hlen : (utf8Encode text).length < N)
    (hzero : ∀ b ∈ utf8Encode text, b ≠ 0) :
    get_message_from_buffer (frame_encode (utf8Encode text) N) = some text := by
  unfold get_message_from_buffer frame_encode vecResize
  rw [List.take_of_length_le (by omega), List.filter_append,
    List.filter_eq_self.mpr (fun a ha => by simpa using hzero a ha),
    List.filter_replicate_of_neg (by simp), List.append_nil]
  exact utf8Decode_encode text hvalid

theorem C1_framer_roundtrip_witness :
    TextValid [0x68, 0x69] ∧ (utf8Encode [0x68, 0x69]).length < 8 ∧
    (∀ b ∈ utf8Encode [0x68, 0x69], b ≠ 0) ∧
    get_message_from_buffer (frame_encode (utf8Encode [0x68, 0x69]) 8) =
      some [0x68, 0x69] :=
  ⟨by decide, by decide, by decide,
    C1_framer_roundtrip [0x68, 0x69] 8 (by decide) (by decide) (by decide)⟩

/-- C2 counterexample: the claim says encoding a text of byte length ≥ N
fails with a `FrameTooLarge` error and does not produce a frame; the code
has no such error path — `handle_writes` unconditionally `resize`s, so the
5-byte message "hello" at frame size 4 silently yields the truncated
4-byte frame "hell". -/
theorem C2_counterexample :
    4 ≤ ([0x68, 0x65, 0x6C, 0x6C, 0x6F] : List Nat).length ∧
    frame_encode [0x68, 0x65, 0x6C, 0x6C, 0x6F] 4 =
      [0x68, 0x65, 0x6C, 0x6C] := by
  decide

/-- C2 amended: for every message of byte length ≥ N the encoding performed
by `handle_writes` does not fail; it silently truncates the message to its
first N bytes and produces that N-byte frame. -/
theorem C2_encode_truncates (msg : List Nat) (N : Nat) (h : N ≤ msg.length) :
    frame_encode msg N = msg.take N ∧ (frame_encode msg N).length = N := by
  unfold frame_encode vecResize
  have h0 : N - msg.length = 0 := by omega
  rw [h0]
  constructor
  · simp
  · simp only [List.replicate_zero, List.append_nil, List.length_take]
    omega

theorem C2_encode_truncates_witness :
    4 ≤ ([0x68, 0x65, 0x6C, 0x6C, 0x6F] : List Nat).length ∧
    (frame_encode [0x68, 0x65, 0x6C, 0x6C, 0x6F] 4 =
        ([0x68, 0x65, 0x6C, 0x6C, 0x6F] : List Nat).take 4 ∧
      (frame_encode [0x68, 0x65, 0x6C, 0x6C, 0x6F] 4).length = 4) :=
  ⟨by decide, C2_encode_truncates [0x68, 0x65, 0x6C, 0x6C, 0x6F] 4 (by decide)⟩

/-- C3 counterexample: the claim says a frame whose non-zero bytes are not
valid UTF-8 is non-fatal and the read loop continues with the next frames;
in the code the decode failure hits the `break` of
`chat_server/src/main.rs:97-103`.  Concretely: a session reads the invalid
byte `0xFF` and then a valid frame "hi"; the loop exits at the first frame
(`exited = true`), the second frame is never processed, and no broadcast is
produced. -/
theorem C3_counterexample :
    handle_client [ReadEvent.ok [0xFF], ReadEvent.ok [0x68, 0x69]]
        ⟨true, none, [0x61]⟩ (List.replicate 8 0) =
      ⟨[], ⟨true, none, [0x61]⟩, [0xFF, 0, 0, 0, 0, 0, 0, 0], true⟩ := by
  decide

/-- C3 amended: a frame that fails to decode is FATAL for the session: the
session logs the error and breaks out of its read loop immediately — no
broadcast is produced, the remaining read events are never consumed — and
the session is then removed from the registry by `remove_client`. -/
theorem C3_decode_failure_fatal (data : List Nat) (rest : List ReadEvent)
    (st : SessionState) (buffer registry : List Nat) (sid : Nat)
    (ha : st.active = true)
    (hdec : get_message_from_buffer (writeInto buffer data) = none)
    (hcount : registry.count sid ≤ 1) :
    handle_client (ReadEvent.ok data :: rest) st buffer =
      ⟨[], st, writeInto buffer data, true⟩ ∧
    sid ∉ session_epilogue
        (handle_client (ReadEvent.ok data :: rest) st buffer) registry sid := by
  have hrun := handle_client_ok_none ha rest hdec
  refine ⟨hrun, ?_⟩
  rw [hrun]
  exact remove_client_count_le_one hcount

theorem C3_decode_failure_fatal_witness :
    (⟨true, none, [0x61]⟩ : SessionState).active = true ∧
    get_message_from_buffer (writeInto (List.replicate 8 0) [0xFF]) = none ∧
    ([5] : List Nat).count 5 ≤ 1 ∧
    (handle_client [ReadEvent.ok [0xFF], ReadEvent.ok [0x68, 0x69]]
        ⟨true, none, [0x61]⟩ (List.replicate 8 0) =
      ⟨[], ⟨true, none, [0x61]⟩, writeInto (List.replicate 8 0) [0xFF], true⟩ ∧
    5 ∉ session_epilogue
        (handle_client [ReadEvent.ok [0xFF], ReadEvent.ok [0x68, 0x69]]
          ⟨true, none, [0x61]⟩ (List.replicate 8 0)) [5] 5) :=
  ⟨rfl, by decide, by decide,
    C3_decode_failure_fatal [0xFF] [ReadEvent.ok [0x68, 0x69]]
      ⟨true, none, [0x61]⟩ (List.replicate 8 0) [5] 5 rfl (by decide) (by decide)⟩

/-- C4: for every sequence of connect / `:quit` / disconnect events applied
from the empty initial state, the registry size equals the number of
sessions not yet removed, and no session id appears twice in the
registry (each connect adds the session once, each exit removes it once). -/
theorem C4_registry_matches_live_sessions (events : List LifeEvent) :
    (applyEvents initServer events).registry.length =
      ((applyEvents initServer events).sessions.filter (fun p => !p.2)).length ∧
    (applyEvents initServer events).registry.Nodup := by
  obtain ⟨h1, h2, -⟩ := applyEvents_inv events initServer rfl List.nodup_nil
    (fun p hp => absurd hp (List.not_mem_nil p))
  constructor
  · rw [h1]
    unfold activeIds
    rw [List.length_map]
  · rw [h1]
    exact List.Nodup.sublist ((List.filter_sublist _).map Prod.fst) h2

/-- C5: once a session processes a frame whose first whitespace-separated
token is `:quit`, its active flag is false and the loop result is fixed —
no broadcasts, no further reads (the result does not depend on the
remaining events), loop exited — and the registry no longer contains the
session after its exit path runs `remove_client`. -/
theorem C5_quit_terminates_session (data : List Nat) (rest : List ReadEvent)
    (st : SessionState) (buffer message : List Nat) (registry : List Nat)
    (sid : Nat)
    (ha : st.active = true)
    (hdec : get_message_from_buffer (writeInto buffer data) = some message)
    (hq : (splitWS message).head? = some quitTok)
    (hcount : registry.count sid ≤ 1) :
    handle_client (ReadEvent.ok data :: rest) st buffer =
      ⟨[], { st with active := false }, writeInto buffer data, true⟩ ∧
    sid ∉ session_epilogue
        (handle_client (ReadEvent.ok data :: rest) st buffer) registry sid := by
  have hs : ∃ toks, splitWS message = quitTok :: toks := by
    cases hsp : splitWS message with
    | nil => rw [hsp] at hq; cases hq
    | cons t ts =>
      rw [hsp] at hq
      injection hq with h1
      exact ⟨ts, by rw [h1]⟩
  obtain ⟨toks, hs⟩ := hs
  have htrim : splitWS (trimChars message) = quitTok :: toks := by
    rw [splitWS_trim]; exact hs
  have hcolon : (trimChars message).head? = some 0x3A := by
    rw [trimChars_head?_of_splitWS hs]; rfl
  have hpc : process_command (trimChars message) st =
      { st with active := false } :=
    process_command_quit st (by rw [htrim]; rfl)
  have hrun : handle_client (ReadEvent.ok data :: rest) st buffer =
      ⟨[], { st with active := false }, writeInto buffer data, true⟩ := by
    rw [handle_client_ok_cmd ha rest hdec hcolon, hpc,
      handle_client_inactive rest _ _ rfl]
  refine ⟨hrun, ?_⟩
  rw [hrun]
  exact remove_client_count_le_one hcount

theorem C5_quit_terminates_session_witness :
    (⟨true, none, [0x61]⟩ : SessionState).active = true ∧
    get_message_from_buffer (writeInto (List.replicate 8 0) quitTok) =
      some quitTok ∧
    (splitWS quitTok).head? = some quitTok ∧
    ([5] : List Nat).count 5 ≤ 1 ∧
    (handle_client [ReadEvent.ok quitTok, ReadEvent.ok [0x68, 0x69]]
        ⟨true, none, [0x61]⟩ (List.replicate 8 0) =
      ⟨[], ⟨false, none, [0x61]⟩, writeInto (List.replicate 8 0) quitTok,
        true⟩ ∧
    5 ∉ session_epilogue
        (handle_client [ReadEvent.ok quitTok, ReadEvent.ok [0x68, 0x69]]
          ⟨true, none, [0x61]⟩ (List.replicate 8 0)) [5] 5) :=
  ⟨rfl, by decide, by decide, by decide,
    C5_quit_terminates_session quitTok [ReadEvent.ok [0x68, 0x69]]
      ⟨true, none, [0x61]⟩ (List.replicate 8 0) quitTok [5] 5 rfl (by decide)
      (by decide) (by decide)⟩

/-- C6 counterexample: the claim says `:name Alice Smith` sets the display
name to "Alice Smith" (all arguments joined); the code
(`chat_server/src/main.rs:39`) stores `args[1]` only, so the nickname
becomes "Alice". -/
theorem C6_counterexample :
    (process_command
        [0x3A, 0x6E, 0x61, 0x6D, 0x65, 0x20, 0x41, 0x6C, 0x69, 0x63, 0x65,
          0x20, 0x53, 0x6D, 0x69, 0x74, 0x68]
        ⟨true, none, [0x61]⟩).nickname = some [0x41, 0x6C, 0x69, 0x63, 0x65] ∧
    ([0x41, 0x6C, 0x69, 0x63, 0x65] : List Nat) ≠
      [0x41, 0x6C, 0x69, 0x63, 0x65, 0x20, 0x53, 0x6D, 0x69, 0x74, 0x68] := by
  decide

/-- C6 amended: `:name` with at least one argument sets the display name to
the FIRST argument only (`:name Alice Smith` yields "Alice"); with zero
arguments it clears the nickname, so the display name reverts to the peer
address.  The active flag and address are untouched. -/
theorem C6_name_sets_first_arg (cmd : List Nat) (st : SessionState)
    (args : List (List Nat)) (hsplit : splitWS cmd = nameTok :: args) :
    ((process_command cmd st).active = st.active ∧
      (process_command cmd st).address = st.address) ∧
    (args = [] → (process_command cmd st).nickname = none ∧
      get_display_name (process_command cmd st) = st.address) ∧
    (∀ a1 rest, args = a1 :: rest →
      (process_command cmd st).nickname = some a1) := by
  cases args with
  | nil =>
    rw [process_command_name_nil st hsplit]
    refine ⟨⟨rfl, rfl⟩, ?_, ?_⟩
    · intro
      exact ⟨rfl, rfl⟩
    · intro a1 rest h
      cases h
  | cons a1 t =>
    rw [process_command_name_arg st t hsplit]
    refine ⟨⟨rfl, rfl⟩, ?_, ?_⟩
    · intro h
      cases h
    · intro a1' rest' h
      injection h with h1 h2
      subst h1
      rfl

theorem C6_name_sets_first_arg_witness :
    splitWS nameTok = nameTok :: [] ∧
    (((process_command nameTok ⟨true, some [0x41], [0x62]⟩).active =
        (⟨true, some [0x41], [0x62]⟩ : SessionState).active ∧
      (process_command nameTok ⟨true, some [0x41], [0x62]⟩).address =
        (⟨true, some [0x41], [0x62]⟩ : SessionState).address) ∧
    (([] : List (List Nat)) = [] →
      (process_command nameTok ⟨true, some [0x41], [0x62]⟩).nickname = none ∧
      get_display_name (process_command nameTok ⟨true, some [0x41], [0x62]⟩) =
        (⟨true, some [0x41], [0x62]⟩ : SessionState).address) ∧
    (∀ a1 rest, ([] : List (List Nat)) = a1 :: rest →
      (process_command nameTok ⟨true, some [0x41], [0x62]⟩).nickname =
        some a1)) :=
  ⟨by decide,
    C6_name_sets_first_arg nameTok ⟨true, some [0x41], [0x62]⟩ [] (by decide)⟩

/-- C7: the broadcaster's fan-out attempts a write of the encoded frame to
every client of the registry in order — including the one that produced
the message, with no originator exclusion — and the set of attempted
recipients does not depend on which writes fail (`continue` just moves to
the next client). -/
theorem C7_broadcast_fanout (N : Nat) (messageBytes : List Nat)
    (clients : List WClient) (writeOk writeOk' : Nat → Bool)
    (hsock : ∀ c ∈ clients, c.hasSocket = true) :
    (handle_writes N messageBytes clients writeOk).map (fun e => e.1) =
      clients.map WClient.sid ∧
    (∀ e ∈ handle_writes N messageBytes clients writeOk,
      e.2.1 = frame_encode messageBytes N) ∧
    (handle_writes N messageBytes clients writeOk).map (fun e => e.1) =
      (handle_writes N messageBytes clients writeOk').map (fun e => e.1) :=
  ⟨handle_writes_sids N messageBytes writeOk clients hsock,
    handle_writes_frames N messageBytes writeOk clients,
    (handle_writes_sids N messageBytes writeOk clients hsock).trans
      (handle_writes_sids N messageBytes writeOk' clients hsock).symm⟩

theorem C7_broadcast_fanout_witness :
    (∀ c ∈ ([⟨0, true⟩, ⟨1, true⟩, ⟨2, true⟩] : List WClient),
      c.hasSocket = true) ∧
    ((handle_writes 4 [0x68, 0x69] [⟨0, true⟩, ⟨1, true⟩, ⟨2, true⟩]
        (fun i => decide (i ≠ 1))).map (fun e => e.1) =
      ([⟨0, true⟩, ⟨1, true⟩, ⟨2, true⟩] : List WClient).map WClient.sid ∧
    (∀ e ∈ handle_writes 4 [0x68, 0x69] [⟨0, true⟩, ⟨1, true⟩, ⟨2, true⟩]
        (fun i => decide (i ≠ 1)),
      e.2.1 = frame_encode [0x68, 0x69] 4) ∧
    (handle_writes 4 [0x68, 0x69] [⟨0, true⟩, ⟨1, true⟩, ⟨2, true⟩]
        (fun i => decide (i ≠ 1))).map (fun e => e.1) =
      (handle_writes 4 [0x68, 0x69] [⟨0, true⟩, ⟨1, true⟩, ⟨2, true⟩]
        (fun _ => false)).map (fun e => e.1)) :=
  ⟨by decide,
    C7_broadcast_fanout 4 [0x68, 0x69] [⟨0, true⟩, ⟨1, true⟩, ⟨2, true⟩]
      (fun i => decide (i ≠ 1)) (fun _ => false) (by decide)⟩

/-- C8: in the server's read loop a zero-byte read is NOT a pure retry —
`Ok(0)` falls into the `Ok(_)` arm of `chat_server/src/main.rs:88-89`, so
the unchanged (stale) buffer is decoded and re-dispatched.  Concretely: a
session reads "hi" (broadcast once), then a read returns 0 bytes, and the
stale buffer contents are decoded and broadcast a second time, leaving two
identical chat lines in the queue where the claim requires one. -/
theorem C8_zero_byte_read_redispatches_stale_buffer :
    (handle_client [ReadEvent.ok [0x68, 0x69], ReadEvent.ok []]
        ⟨true, none, [0x61]⟩ (List.replicate 8 0)).broadcasts =
      [[0x61, 0x3A, 0x20, 0x68, 0x69], [0x61, 0x3A, 0x20, 0x68, 0x69]] := by
  decide

/-- C9: a command frame whose first token starts with the prefix `:` but is
neither `:quit` nor `:name` has no effect: the loop step is identical to
skipping the frame — the session state (display name and active flag) is
unchanged and no broadcast is added. -/
theorem C9_unknown_command_no_effect (data : List Nat) (rest : List ReadEvent)
    (st : SessionState) (buffer message tok : List Nat)
    (ha : st.active = true)
    (hdec : get_message_from_buffer (writeInto buffer data) = some message)
    (hhead : (splitWS message).head? = some tok)
    (hcolon : tok.head? = some 0x3A)
    (hquit : tok ≠ quitTok) (hname : tok ≠ nameTok) :
    handle_client (ReadEvent.ok data :: rest) st buffer =
      handle_client rest st (writeInto buffer data) := by
  have hs : ∃ toks, splitWS message = tok :: toks := by
    cases hsp : splitWS message with
    | nil => rw [hsp] at hhead; cases hhead
    | cons t ts =>
      rw [hsp] at hhead
      injection hhead with h1
      exact ⟨ts, by rw [h1]⟩
  obtain ⟨toks, hs⟩ := hs
  have htrim : splitWS (trimChars message) = tok :: toks := by
    rw [splitWS_trim]; exact hs
  have hcol : (trimChars message).head? = some 0x3A := by
    rw [trimChars_head?_of_splitWS hs]; exact hcolon
  rw [handle_client_ok_cmd ha rest hdec hcol,
    process_command_unknown st toks htrim hquit hname]

theorem C9_unknown_command_no_effect_witness :
    (⟨true, some [0x41], [0x61]⟩ : SessionState).active = true ∧
    get_message_from_buffer
        (writeInto (List.replicate 8 0) [0x3A, 0x66, 0x6F, 0x6F]) =
      some [0x3A, 0x66, 0x6F, 0x6F] ∧
    (splitWS [0x3A, 0x66, 0x6F, 0x6F]).head? = some [0x3A, 0x66, 0x6F, 0x6F] ∧
    ([0x3A, 0x66, 0x6F, 0x6F] : List Nat).head? = some 0x3A ∧
    ([0x3A, 0x66, 0x6F, 0x6F] : List Nat) ≠ quitTok ∧
    ([0x3A, 0x66, 0x6F, 0x6F] : List Nat) ≠ nameTok ∧
    handle_client [ReadEvent.ok [0x3A, 0x66, 0x6F, 0x6F]]
        ⟨true, some [0x41], [0x61]⟩ (List.replicate 8 0) =
      handle_client [] ⟨true, some [0x41], [0x61]⟩
        (writeInto (List.replicate 8 0) [0x3A, 0x66, 0x6F, 0x6F]) :=
  ⟨rfl, by decide, by decide, by decide, by decide, by decide,
    C9_unknown_command_no_effect [0x3A, 0x66, 0x6F, 0x6F] []
      ⟨true, some [0x41], [0x61]⟩ (List.replicate 8 0) [0x3A, 0x66, 0x6F, 0x6F]
      [0x3A, 0x66, 0x6F, 0x6F] rfl (by decide) (by decide) (by decide)
      (by decide) (by decide)⟩

/-- C10: the client suppresses a received broadcast line exactly when the
decoded line is empty or starts with its own display name followed by
`": "`; consequently a line formatted by the server for a sender whose
display name equals the receiving client's own (quote-free) display name
is silently discarded. -/
theorem C10_client_self_suppression (message d m : List Nat)
    (sender : SessionState)
    (hname : get_display_name sender = d) (hq : (0x22 : Nat) ∉ d) :
    (client_shows message d = false ↔
      (message = [] ∨ (d ++ [0x3A, 0x20]).isPrefixOf message = true)) ∧
    client_shows (send_message_line m sender) d = false := by
  constructor
  · unfold client_shows
    constructor
    · intro h
      by_cases hm : message = []
      · exact Or.inl hm
      · right
        have hE : message.isEmpty = false := List.isEmpty_eq_false.mpr hm
        cases hP : (d ++ [0x3A, 0x20]).isPrefixOf message with
        | true => rfl
        | false =>
          rw [hE, hP] at h
          simp at h
    · intro h
      rcases h with rfl | hP
      · rfl
      · rw [hP]
        simp
  · unfold client_shows send_message_line
    rw [hname]
    rw [List.filter_append, List.filter_append]
    have hd : d.filter (fun c => c ≠ 0x22) = d :=
      List.filter_eq_self.mpr
        (fun a ha => by simpa using fun he : a = 0x22 => hq (he ▸ ha))
    have h32 : ([0x3A, 0x20] : List Nat).filter (fun c => c ≠ 0x22) =
        [0x3A, 0x20] := by decide
    rw [hd, h32]
    have hpre : (d ++ [0x3A, 0x20]).isPrefixOf
        ((d ++ [0x3A, 0x20]) ++ m.filter (fun c => c ≠ 0x22)) = true := by
      simp only [List.isPrefixOf_iff_prefix]
      exact List.prefix_append _ _
    rw [hpre]
    simp

theorem C10_client_self_suppression_witness :
    get_display_name ⟨true, some [0x61], [0x7A]⟩ = [0x61] ∧
    (0x22 : Nat) ∉ ([0x61] : List Nat) ∧
    ((client_shows [0x62] [0x61] = false ↔
      (([0x62] : List Nat) = [] ∨
        (([0x61] : List Nat) ++ [0x3A, 0x20]).isPrefixOf [0x62] = true)) ∧
    client_shows (send_message_line [0x68, 0x69] ⟨true, some [0x61], [0x7A]⟩)
      [0x61] = false) :=
  ⟨rfl, by decide,
    C10_client_self_suppression [0x62] [0x61] [0x68, 0x69]
      ⟨true, some [0x61], [0x7A]⟩ rfl (by decide)⟩

end Chat


